import Mathlib

/-!
Verification of the `inputd` daemon (dbrgn/weltempfaenger).

The source is shallowly embedded: the calibration mapper
(`measurement_to_angle`, `map_potentiometer_value`) becomes pure functions on
`Nat` with explicit `% 2^16` / `% 2^8` where the Rust `u16`/`u8` casts occur;
the debouncer (an external crate, modelled from the spec) becomes a state
machine on `Bool` samples; the GPIO dispatch and the playback supervisor
become step functions emitting explicit event traces, with the fallible OS
interactions (spawn, signal, wait) driven by an explicit environment.
-/

namespace Weltempfaenger

/-- The volume calibration table `LOOKUP_TABLE_VOL` from the source:
(angle, value) pairs, fixed at compile time. -/
def LOOKUP_TABLE_VOL : List (Nat × Nat) :=
  [(0, 10), (10, 20), (20, 280), (25, 1200), (30, 2600), (40, 4700),
   (50, 7500), (60, 10000), (70, 13500), (80, 14900), (90, 15800),
   (100, 16600), (110, 17200), (120, 17700), (130, 18400), (140, 18700),
   (150, 18800), (160, 19000), (170, 19002), (180, 19250), (190, 20080),
   (200, 21082), (210, 21880), (220, 23550), (230, 24680), (240, 25730),
   (250, 26226), (280, 26227)]

/-- `MIN_ANGLE = LOOKUP_TABLE_VOL[0].0`. -/
def MIN_ANGLE : Nat := (LOOKUP_TABLE_VOL.headD (0, 0)).1

/-- `MAX_ANGLE = LOOKUP_TABLE_VOL[len - 1].0`. -/
def MAX_ANGLE : Nat := (LOOKUP_TABLE_VOL.getLastD (0, 0)).1

/-- `MIN_VALUE = LOOKUP_TABLE_VOL[0].1`. -/
def MIN_VALUE : Nat := (LOOKUP_TABLE_VOL.headD (0, 0)).2

/-- `MAX_VALUE = LOOKUP_TABLE_VOL[len - 1].1`. -/
def MAX_VALUE : Nat := (LOOKUP_TABLE_VOL.getLastD (0, 0)).2

/-- The scan loop of `measurement_to_angle` (`for i in 0..LOOKUP_TABLE_VOL.len()`).
`last` is `LOOKUP_TABLE_VOL[i - 1]` (`none` at `i = 0`, where Rust's
`table[i - 1]` would be an out-of-bounds panic — modelled as `none` output).
The interpolation multiplies in `u32` (never overflowing for `u16` operands,
since `65535 * 65535 < 2^32`, so plain `Nat` arithmetic is exact) and casts
the result back with `as u16`, modelled by `% 65536`. -/
def scanTable (val : Nat) : Option (Nat × Nat) → List (Nat × Nat) → Option Nat
  | _, [] => some MAX_ANGLE
  | last, e :: rest =>
    if e.2 = val then
      some e.1
    else if val < e.2 then
      match last with
      | some lower => some (((e.1 - lower.1) * (val - lower.2) / (e.2 - lower.2) + lower.1) % 65536)
      | none => none
    else
      scanTable val (some e) rest

/-- `measurement_to_angle` from the source: clamp below `MIN_VALUE` and above
`MAX_VALUE`, otherwise scan the table for an exact match or interpolate
between the previous and current entry. -/
def measurement_to_angle (val : Nat) : Option Nat :=
  if val ≤ MIN_VALUE then some MIN_ANGLE
  else if MAX_VALUE ≤ val then some MAX_ANGLE
  else scanTable val none LOOKUP_TABLE_VOL

/-- The `percent` computation in `map_potentiometer_value`:
`(angle - MIN_ANGLE) * 100 / (MAX_ANGLE - MIN_ANGLE)` in `u16` arithmetic
(the product wraps at `2^16`; subtraction by `MIN_ANGLE = 0` cannot underflow). -/
def percentOf (angle : Nat) : Nat :=
  (angle - MIN_ANGLE) * 100 % 65536 / (MAX_ANGLE - MIN_ANGLE)

/-- The result expression `100 - percent as u8` of `map_potentiometer_value`:
the `u16` percent is truncated to `u8` (`% 256`) and subtracted from 100. -/
def volumePercent (angle : Nat) : Nat := 100 - percentOf angle % 256

/-- `map_potentiometer_value` from the source: convert the measurement to an
angle, compute the percent, `assert!(percent <= 100)` (modelled as `none` on
assertion failure, the fatal branch), and return `100 - percent as u8`. -/
def map_potentiometer_value (val : Nat) : Option Nat :=
  match measurement_to_angle val with
  | none => none
  | some angle =>
    if percentOf angle ≤ 100 then some (volumePercent angle) else none

theorem MIN_ANGLE_eq : MIN_ANGLE = 0 := rfl

theorem MAX_ANGLE_eq : MAX_ANGLE = 280 := rfl

theorem MIN_VALUE_eq : MIN_VALUE = 10 := rfl

theorem MAX_VALUE_eq : MAX_VALUE = 26227 := rfl

/-- Entry values in the table are strictly increasing. -/
theorem table_values_sorted :
    List.Pairwise (fun p q : Nat × Nat => p.2 < q.2) LOOKUP_TABLE_VOL := by decide

/-- Entry angles in the table are strictly increasing. -/
theorem table_angles_sorted :
    List.Pairwise (fun p q : Nat × Nat => p.1 < q.1) LOOKUP_TABLE_VOL := by decide

/-- Every angle in the table is at most `MAX_ANGLE = 280`. -/
theorem table_angles_le : ∀ p ∈ LOOKUP_TABLE_VOL, p.1 ≤ 280 := by decide

/-- Every value in the table lies in `[MIN_VALUE, MAX_VALUE]`. -/
theorem table_values_range : ∀ p ∈ LOOKUP_TABLE_VOL, 10 ≤ p.2 ∧ p.2 ≤ 26227 := by decide

/-- Once the scan has a previous entry, it always returns a result
(the out-of-bounds `table[i - 1]` branch is no longer reachable). -/
theorem scanTable_isSome (val : Nat) :
    ∀ (l : List (Nat × Nat)) (p : Nat × Nat), ∃ a, scanTable val (some p) l = some a := by
  intro l
  induction l with
  | nil => exact fun p => ⟨MAX_ANGLE, rfl⟩
  | cons e rest ih =>
    intro p
    by_cases h1 : e.2 = val
    · exact ⟨e.1, by simp [scanTable, h1]⟩
    · by_cases h2 : val < e.2
      · exact ⟨((e.1 - p.1) * (val - p.2) / (e.2 - p.2) + p.1) % 65536,
          by simp [scanTable, h1, h2]⟩
      · obtain ⟨a, ha⟩ := ih e
        exact ⟨a, by simp [scanTable, h1, h2, ha]⟩

/-- A table entry whose value is below `val` is skipped by the scan. -/
theorem scanTable_skip (val : Nat) (last : Option (Nat × Nat)) (e : Nat × Nat)
    (rest : List (Nat × Nat)) (h : e.2 < val) :
    scanTable val last (e :: rest) = scanTable val (some e) rest := by
  have h1 : ¬(e.2 = val) := by omega
  have h2 : ¬(val < e.2) := by omega
  simp [scanTable, h1, h2]

/-- `measurement_to_angle` is total: the `table[i - 1]` access never goes out
of bounds, because the scan is only reached for `val > MIN_VALUE` and the
first entry's value is `MIN_VALUE`, so the first iteration always skips. -/
theorem measurement_to_angle_isSome (val : Nat) : ∃ a, measurement_to_angle val = some a := by
  unfold measurement_to_angle
  by_cases h1 : val ≤ MIN_VALUE
  · exact ⟨MIN_ANGLE, by simp [h1]⟩
  by_cases h2 : MAX_VALUE ≤ val
  · exact ⟨MAX_ANGLE, by simp [h1, h2]⟩
  rw [if_neg h1, if_neg h2]
  rw [MIN_VALUE_eq] at h1
  rw [show LOOKUP_TABLE_VOL = (0, 10) :: LOOKUP_TABLE_VOL.tail from rfl]
  rw [scanTable_skip val none (0, 10) _ (by simpa using by omega)]
  exact scanTable_isSome val _ _

/-- Any result of the scan is at most 280, provided all table angles and the
previous entry's angle are: the interpolated angle never exceeds the upper
entry's angle. -/
theorem scanTable_le (val : Nat) :
    ∀ (l : List (Nat × Nat)) (last : Option (Nat × Nat)) (a : Nat),
      (∀ p ∈ l, p.1 ≤ 280) → (∀ p, last = some p → p.1 ≤ 280) →
      scanTable val last l = some a → a ≤ 280 := by
  intro l
  induction l with
  | nil =>
    intro last a _ _ h
    simp [scanTable, MAX_ANGLE_eq] at h
    omega
  | cons e rest ih =>
    intro last a hl hlast h
    have he : e.1 ≤ 280 := hl e (by simp)
    by_cases h1 : e.2 = val
    · simp [scanTable, h1] at h
      omega
    · by_cases h2 : val < e.2
      · cases last with
        | none => simp [scanTable, h1, h2] at h
        | some lower =>
          have hlo : lower.1 ≤ 280 := hlast lower rfl
          simp [scanTable, h1, h2] at h
          have hq : (e.1 - lower.1) * (val - lower.2) / (e.2 - lower.2) ≤ e.1 - lower.1 := by
            rcases Nat.eq_zero_or_pos (e.2 - lower.2) with hz | hz
            · simp [hz]
            · calc (e.1 - lower.1) * (val - lower.2) / (e.2 - lower.2)
                  ≤ (e.1 - lower.1) * (e.2 - lower.2) / (e.2 - lower.2) :=
                    Nat.div_le_div_right (Nat.mul_le_mul le_rfl (by omega))
                _ = e.1 - lower.1 := by rw [Nat.mul_div_cancel]; exact hz
          have hm := Nat.mod_le ((e.1 - lower.1) * (val - lower.2) / (e.2 - lower.2) + lower.1) 65536
          omega
      · refine ih (some e) a (fun p hp => hl p (by simp [hp])) ?_ ?_
        · intro p hp
          cases hp
          exact he
        · rw [scanTable_skip val last e rest (by omega)] at h
          exact h

/-- Every angle produced by `measurement_to_angle` is at most `MAX_ANGLE = 280`. -/
theorem measurement_to_angle_le (val a : Nat) (h : measurement_to_angle val = some a) :
    a ≤ 280 := by
  unfold measurement_to_angle at h
  by_cases h1 : val ≤ MIN_VALUE
  · rw [if_pos h1] at h
    cases h
    decide
  by_cases h2 : MAX_VALUE ≤ val
  · rw [if_neg h1, if_pos h2] at h
    cases h
    decide
  rw [if_neg h1, if_neg h2] at h
  exact scanTable_le val LOOKUP_TABLE_VOL none a table_angles_le (by simp) h

/-- An exact value match returns the matching entry's angle (checked on the
whole concrete table). -/
theorem measurement_to_angle_exact :
    ∀ p ∈ LOOKUP_TABLE_VOL, measurement_to_angle p.2 = some p.1 := by decide

/-- If every entry before `l` has value below `val` and `l.2 < val < u.2`,
the scan interpolates between `l` and `u`. -/
theorem scanTable_between (val : Nat) (l u : Nat × Nat) :
    ∀ (before : List (Nat × Nat)) (last : Option (Nat × Nat)),
      (∀ p ∈ before, p.2 < val) → l.2 < val → val < u.2 →
      ∀ post, scanTable val last (before ++ l :: u :: post) =
        some (((u.1 - l.1) * (val - l.2) / (u.2 - l.2) + l.1) % 65536) := by
  intro before
  induction before with
  | nil =>
    intro last _ hl hu post
    rw [List.nil_append, scanTable_skip val last l (u :: post) hl]
    have h1 : ¬(u.2 = val) := by omega
    simp [scanTable, h1, hu]
  | cons p rest ih =>
    intro last hb hl hu post
    rw [List.cons_append, scanTable_skip val last p _ (hb p (by simp))]
    exact ih (some p) (fun q hq => hb q (by simp [hq])) hl hu post

/-- For a value strictly between two consecutive table entries,
`measurement_to_angle` returns the floor-interpolated angle, which lies
between the two entries' angles. -/
theorem measurement_to_angle_between (before post : List (Nat × Nat)) (l u : Nat × Nat)
    (val : Nat) (hsplit : LOOKUP_TABLE_VOL = before ++ l :: u :: post)
    (hl : l.2 < val) (hu : val < u.2) :
    measurement_to_angle val = some ((u.1 - l.1) * (val - l.2) / (u.2 - l.2) + l.1) ∧
    l.1 ≤ (u.1 - l.1) * (val - l.2) / (u.2 - l.2) + l.1 ∧
    (u.1 - l.1) * (val - l.2) / (u.2 - l.2) + l.1 ≤ u.1 := by
  have hlmem : l ∈ LOOKUP_TABLE_VOL := by rw [hsplit]; simp
  have humem : u ∈ LOOKUP_TABLE_VOL := by rw [hsplit]; simp
  have hlrange := table_values_range l hlmem
  have hurange := table_values_range u humem
  -- All entries before `l` have a smaller value than `l`, hence than `val`.
  have hvsort := table_values_sorted
  rw [hsplit, List.pairwise_append] at hvsort
  have hb : ∀ p ∈ before, p.2 < val := by
    intro p hp
    have := hvsort.2.2 p hp l (by simp)
    omega
  -- `l.1 < u.1` from the angle ordering.
  have hasort := table_angles_sorted
  rw [hsplit, List.pairwise_append] at hasort
  have hlu : l.1 < u.1 := by
    have := hasort.2.1
    rw [List.pairwise_cons] at this
    exact this.1 u (by simp)
  have hule : u.1 ≤ 280 := table_angles_le u humem
  -- Bound the interpolated angle by the two entries' angles.
  have hq : (u.1 - l.1) * (val - l.2) / (u.2 - l.2) ≤ u.1 - l.1 := by
    have hz : 0 < u.2 - l.2 := by omega
    calc (u.1 - l.1) * (val - l.2) / (u.2 - l.2)
        ≤ (u.1 - l.1) * (u.2 - l.2) / (u.2 - l.2) :=
          Nat.div_le_div_right (Nat.mul_le_mul le_rfl (by omega))
      _ = u.1 - l.1 := by rw [Nat.mul_div_cancel]; exact hz
  have hbound : (u.1 - l.1) * (val - l.2) / (u.2 - l.2) + l.1 ≤ u.1 := by omega
  have hmod : ((u.1 - l.1) * (val - l.2) / (u.2 - l.2) + l.1) % 65536 =
      (u.1 - l.1) * (val - l.2) / (u.2 - l.2) + l.1 :=
    Nat.mod_eq_of_lt (lt_of_le_of_lt hbound (by omega))
  refine ⟨?_, Nat.le_add_left _ _, hbound⟩
  unfold measurement_to_angle
  rw [if_neg (by rw [MIN_VALUE_eq]; omega), if_neg (by rw [MAX_VALUE_eq]; omega)]
  rw [hsplit, scanTable_between val l u before none hb hl hu post, hmod]

/-- C1: for every raw ADC code in `[0, 65535]`, `map_potentiometer_value`
returns a volume percentage in `[0, 100]`; the internally computed percent
`(angle - MIN_ANGLE) * 100 / (MAX_ANGLE - MIN_ANGLE)` never exceeds 100, so
the assertion (fatal branch) is unreachable and the function is total. -/
theorem map_potentiometer_value_total_in_range (val : Nat) (_hval : val ≤ 65535) :
    ∃ a, measurement_to_angle val = some a ∧
      percentOf a ≤ 100 ∧
      map_potentiometer_value val = some (volumePercent a) ∧
      volumePercent a ≤ 100 := by
  obtain ⟨a, ha⟩ := measurement_to_angle_isSome val
  have hle := measurement_to_angle_le val a ha
  have hperc : percentOf a ≤ 100 := by
    unfold percentOf
    rw [MIN_ANGLE_eq, MAX_ANGLE_eq, Nat.sub_zero, Nat.sub_zero]
    rw [Nat.mod_eq_of_lt (by omega)]
    calc a * 100 / 280 ≤ 28000 / 280 := Nat.div_le_div_right (by omega)
      _ = 100 := by norm_num
  refine ⟨a, ha, hperc, ?_, ?_⟩
  · simp [map_potentiometer_value, ha, hperc]
  · unfold volumePercent
    omega

theorem map_potentiometer_value_total_in_range_witness :
    30000 ≤ 65535 ∧
    ∃ a, measurement_to_angle 30000 = some a ∧
      percentOf a ≤ 100 ∧
      map_potentiometer_value 30000 = some (volumePercent a) ∧
      volumePercent a ≤ 100 :=
  ⟨by omega, map_potentiometer_value_total_in_range 30000 (by omega)⟩

/-- C3: `measurement_to_angle` equals the reference piecewise definition:
clamp low at or below the minimum table value, clamp high at or above the
maximum, exact match for a table value, floor-interpolation (lying between
the surrounding angles) strictly between two consecutive entries; in
particular `measurement_to_angle 19126 = 175`. -/
theorem measurement_to_angle_piecewise_reference :
    (∀ val, val ≤ MIN_VALUE → measurement_to_angle val = some MIN_ANGLE) ∧
    (∀ val, MAX_VALUE ≤ val → measurement_to_angle val = some MAX_ANGLE) ∧
    (∀ p ∈ LOOKUP_TABLE_VOL, measurement_to_angle p.2 = some p.1) ∧
    (∀ before post l u val, LOOKUP_TABLE_VOL = before ++ l :: u :: post →
      l.2 < val → val < u.2 →
      measurement_to_angle val = some ((u.1 - l.1) * (val - l.2) / (u.2 - l.2) + l.1) ∧
      l.1 ≤ (u.1 - l.1) * (val - l.2) / (u.2 - l.2) + l.1 ∧
      (u.1 - l.1) * (val - l.2) / (u.2 - l.2) + l.1 ≤ u.1) ∧
    measurement_to_angle 19126 = some 175 := by
  refine ⟨?_, ?_, measurement_to_angle_exact, ?_, by decide⟩
  · intro val h
    unfold measurement_to_angle
    rw [if_pos h]
  · intro val h
    have h' : ¬val ≤ MIN_VALUE := by
      rw [MAX_VALUE_eq] at h
      rw [MIN_VALUE_eq]
      omega
    unfold measurement_to_angle
    rw [if_neg h', if_pos h]
  · intro before post l u val hsplit hl hu
    exact measurement_to_angle_between before post l u val hsplit hl hu

theorem measurement_to_angle_piecewise_reference_witness :
    measurement_to_angle 5 = some MIN_ANGLE ∧
    measurement_to_angle 27000 = some MAX_ANGLE ∧
    measurement_to_angle 18700 = some 140 ∧
    (measurement_to_angle 19126 =
        some ((180 - 170) * (19126 - 19002) / (19250 - 19002) + 170) ∧
      170 ≤ (180 - 170) * (19126 - 19002) / (19250 - 19002) + 170 ∧
      (180 - 170) * (19126 - 19002) / (19250 - 19002) + 170 ≤ 180) :=
  ⟨measurement_to_angle_piecewise_reference.1 5 (by decide),
   measurement_to_angle_piecewise_reference.2.1 27000 (by decide),
   measurement_to_angle_piecewise_reference.2.2.1 (140, 18700) (by decide),
   measurement_to_angle_piecewise_reference.2.2.2.1
     [(0, 10), (10, 20), (20, 280), (25, 1200), (30, 2600), (40, 4700),
      (50, 7500), (60, 10000), (70, 13500), (80, 14900), (90, 15800),
      (100, 16600), (110, 17200), (120, 17700), (130, 18400), (140, 18700),
      (150, 18800), (160, 19000)]
     [(190, 20080), (200, 21082), (210, 21880), (220, 23550), (230, 24680),
      (240, 25730), (250, 26226), (280, 26227)]
     (170, 19002) (180, 19250) 19126 (by decide) (by decide) (by decide)⟩

/-- C4: `map_potentiometer_value` computes
`100 - (angle - MIN_ANGLE) * 100 / (MAX_ANGLE - MIN_ANGLE)` with integer
truncation and direction inversion, and the concrete scenarios from the
test-suite hold. -/
theorem map_potentiometer_value_formula :
    (∀ val a, measurement_to_angle val = some a →
      map_potentiometer_value val =
        some (100 - (a - MIN_ANGLE) * 100 / (MAX_ANGLE - MIN_ANGLE))) ∧
    map_potentiometer_value 0 = some 100 ∧
    map_potentiometer_value 26227 = some 0 ∧
    map_potentiometer_value 30000 = some 0 ∧
    map_potentiometer_value 18700 = some 50 ∧
    measurement_to_angle 0 = some 0 ∧
    measurement_to_angle 27000 = some 280 ∧
    measurement_to_angle 64000 = some 280 ∧
    measurement_to_angle 26226 = some 250 ∧
    measurement_to_angle 26227 = some 280 := by
  refine ⟨?_, by decide, by decide, by decide, by decide, by decide,
    by decide, by decide, by decide, by decide⟩
  intro val a ha
  have hle := measurement_to_angle_le val a ha
  have hmodmul : (a - MIN_ANGLE) * 100 % 65536 = (a - MIN_ANGLE) * 100 := by
    rw [MIN_ANGLE_eq, Nat.sub_zero]
    exact Nat.mod_eq_of_lt (by omega)
  have hpid : percentOf a = (a - MIN_ANGLE) * 100 / (MAX_ANGLE - MIN_ANGLE) := by
    unfold percentOf
    rw [hmodmul]
  have hperc : percentOf a ≤ 100 := by
    rw [hpid, MIN_ANGLE_eq, MAX_ANGLE_eq, Nat.sub_zero, Nat.sub_zero]
    calc a * 100 / 280 ≤ 28000 / 280 := Nat.div_le_div_right (by omega)
      _ = 100 := by norm_num
  have hvp : volumePercent a = 100 - (a - MIN_ANGLE) * 100 / (MAX_ANGLE - MIN_ANGLE) := by
    unfold volumePercent
    rw [Nat.mod_eq_of_lt (lt_of_le_of_lt hperc (by norm_num)), hpid]
  simp [map_potentiometer_value, ha, hperc, hvp]

theorem map_potentiometer_value_formula_witness :
    map_potentiometer_value 18700 =
      some (100 - (140 - MIN_ANGLE) * 100 / (MAX_ANGLE - MIN_ANGLE)) :=
  map_potentiometer_value_formula.1 18700 140 (by decide)

/-- C5: the volume percentage is monotonically decreasing in the angle over
the table's range, and equals exactly 100 at the minimum table angle and 0
at the maximum table angle. -/
theorem volumePercent_antitone_endpoints :
    (∀ a1 a2, a1 ≤ a2 → a2 ≤ MAX_ANGLE → volumePercent a2 ≤ volumePercent a1) ∧
    volumePercent MIN_ANGLE = 100 ∧
    volumePercent MAX_ANGLE = 0 := by
  refine ⟨?_, by decide, by decide⟩
  intro a1 a2 h12 h2max
  rw [MAX_ANGLE_eq] at h2max
  have key : ∀ a, a ≤ 280 → percentOf a = a * 100 / 280 ∧ percentOf a ≤ 100 := by
    intro a ha
    unfold percentOf
    rw [MIN_ANGLE_eq, MAX_ANGLE_eq, Nat.sub_zero, Nat.sub_zero,
      Nat.mod_eq_of_lt (by omega)]
    refine ⟨rfl, ?_⟩
    calc a * 100 / 280 ≤ 28000 / 280 := Nat.div_le_div_right (by omega)
      _ = 100 := by norm_num
  obtain ⟨he1, hb1⟩ := key a1 (by omega)
  obtain ⟨he2, hb2⟩ := key a2 h2max
  have hmono : percentOf a1 ≤ percentOf a2 := by
    rw [he1, he2]
    exact Nat.div_le_div_right (by omega)
  unfold volumePercent
  rw [Nat.mod_eq_of_lt (lt_of_le_of_lt hb1 (by norm_num)),
    Nat.mod_eq_of_lt (lt_of_le_of_lt hb2 (by norm_num))]
  omega

theorem volumePercent_antitone_endpoints_witness :
    volumePercent 200 ≤ volumePercent 100 :=
  volumePercent_antitone_endpoints.1 100 200 (by omega) (by decide)

/-- A confirmed logical transition of a debounced signal, rising
(false → true) or falling (true → false). -/
inductive Edge where
  | rising
  | falling
deriving DecidableEq, Repr

/-- Modelled from the spec: the per-channel state of the external debouncer
(crate `debouncr`, whose implementation is not part of this repository's
sources): the last confirmed stable boolean value and a rolling window of
the most recent 16 raw samples, newest first. -/
structure DebounceState where
  confirmed : Bool
  window : List Bool
deriving DecidableEq, Repr

/-- Modelled from the spec: `debounce_stateful_16(initial)` starts with the
given confirmed value and an empty history. -/
def debounce_stateful_16 (initial : Bool) : DebounceState :=
  ⟨initial, []⟩

/-- Modelled from the spec: one debouncer update. The sample is pushed into
the fixed-size rolling window of the last 16 samples; if all 16 samples in
the window are identical and differ from the confirmed value, the
corresponding edge is emitted (rising if the new value is true) and the
confirmed value is set to the new value; otherwise no edge is emitted. -/
def debounce_update (st : DebounceState) (sample : Bool) : DebounceState × Option Edge :=
  if (List.take 16 (sample :: st.window)).length = 16 ∧
      (∀ b ∈ List.take 16 (sample :: st.window), b = sample) ∧
      sample ≠ st.confirmed then
    (⟨sample, List.take 16 (sample :: st.window)⟩,
     some (if sample then Edge.rising else Edge.falling))
  else
    (⟨st.confirmed, List.take 16 (sample :: st.window)⟩, none)

/-- Run the debouncer over a sample sequence, collecting each sample's edge
output. -/
def debounce_run (st : DebounceState) : List Bool → DebounceState × List (Option Edge)
  | [] => (st, [])
  | s :: rest =>
    let p := debounce_update st s
    let q := debounce_run p.1 rest
    (q.1, p.2 :: q.2)

theorem debounce_run_append (st : DebounceState) (xs ys : List Bool) :
    debounce_run st (xs ++ ys) =
      ((debounce_run (debounce_run st xs).1 ys).1,
       (debounce_run st xs).2 ++ (debounce_run (debounce_run st xs).1 ys).2) := by
  induction xs generalizing st with
  | nil => simp [debounce_run]
  | cons x xs ih => simp [debounce_run, ih]

/-- Feeding a sample equal to the confirmed value never emits an edge and
never changes the confirmed value. -/
theorem debounce_run_confirmed_none (v : Bool) :
    ∀ (n : Nat) (st : DebounceState), st.confirmed = v →
      (debounce_run st (List.replicate n v)).1.confirmed = v ∧
      (debounce_run st (List.replicate n v)).2 = List.replicate n none := by
  intro n
  induction n with
  | zero =>
    intro st h
    simp [debounce_run, h]
  | succ n ih =>
    intro st h
    have hstep : debounce_update st v =
        (⟨v, List.take 16 (v :: st.window)⟩, none) := by
      unfold debounce_update
      rw [if_neg (by simp [h]), h]
    rw [List.replicate_succ]
    simp only [debounce_run, hstep]
    exact ⟨(ih ⟨v, List.take 16 (v :: st.window)⟩ rfl).1,
      by rw [List.replicate_succ, (ih ⟨v, List.take 16 (v :: st.window)⟩ rfl).2]⟩

/-- Feeding the confirmed value into a window already full of it keeps the
window full of it. -/
theorem debounce_run_feed_same (v : Bool) :
    ∀ (m k : Nat), k ≤ 16 →
      debounce_run ⟨v, List.replicate k v⟩ (List.replicate m v) =
        (⟨v, List.replicate (min (k + m) 16) v⟩, List.replicate m none) := by
  intro m
  induction m with
  | zero =>
    intro k hk
    simp [debounce_run, Nat.min_eq_left, hk]
  | succ m ih =>
    intro k hk
    have hwin : List.take 16 (v :: List.replicate k v) =
        List.replicate (min (k + 1) 16) v := by
      rw [show (v :: List.replicate k v) = List.replicate (k + 1) v from rfl,
        List.take_replicate]
      rw [Nat.min_comm]
    have hstep : debounce_update ⟨v, List.replicate k v⟩ v =
        (⟨v, List.replicate (min (k + 1) 16) v⟩, none) := by
      unfold debounce_update
      rw [if_neg (by simp)]
      rw [hwin]
    rw [List.replicate_succ]
    simp only [debounce_run, hstep]
    rw [ih (min (k + 1) 16) (Nat.min_le_right _ _)]
    have : min (min (k + 1) 16 + m) 16 = min (k + (m + 1)) 16 := by omega
    rw [this, List.replicate_succ]

/-- A single glitch sample amid a unanimous window produces no edge and
keeps the confirmed value. -/
theorem debounce_glitch_step (v : Bool) (k : Nat) :
    debounce_update ⟨v, List.replicate k v⟩ (!v) =
      (⟨v, List.take 16 ((!v) :: List.replicate k v)⟩, none) := by
  unfold debounce_update
  rw [if_neg]
  rintro ⟨hlen, hall, -⟩
  cases k with
  | zero => simp at hlen
  | succ k =>
    have hv : v ∈ List.take 16 ((!v) :: List.replicate (k + 1) v) := by
      rw [List.take_succ_cons, List.take_replicate]
      refine List.mem_cons_of_mem _ (List.mem_replicate.2 ⟨?_, rfl⟩)
      omega
    have hvv := hall v hv
    cases v <;> simp at hvv

/-- A channel stable at `v` (window unanimously `v`, any fill level) fed 16
consecutive samples of `!v` emits the edge exactly on the 16th sample. -/
theorem debounce_sixteen_flip :
    ∀ v : Bool, ∀ k < 17,
      debounce_run ⟨v, List.replicate k v⟩ (List.replicate 16 (!v)) =
        (⟨!v, List.replicate 16 (!v)⟩,
         List.replicate 15 none ++ [some (if (!v) then Edge.rising else Edge.falling)]) := by
  decide

/-- C6: the confirmed value changes only when the full 16-sample window
unanimously differs from it; a channel stable at an old value fed 16
consecutive samples of the new value emits exactly one edge (rising for
true, falling for false) on the 16th sample and none before; a
single-sample glitch amid otherwise-stable samples produces no edge; and
the edge output sequence is a function of the sample sequence alone. -/
theorem debounce_engine_spec :
    (∀ (st : DebounceState) (s : Bool),
      (debounce_update st s).1.confirmed ≠ st.confirmed →
        (List.take 16 (s :: st.window)).length = 16 ∧
        (∀ b ∈ List.take 16 (s :: st.window), b = s) ∧ s ≠ st.confirmed) ∧
    (∀ (v b : Bool) (k : Nat), k ≤ 16 → b ≠ v →
      debounce_run ⟨v, List.replicate k v⟩ (List.replicate 16 b) =
        (⟨b, List.replicate 16 b⟩,
         List.replicate 15 none ++ [some (if b then Edge.rising else Edge.falling)])) ∧
    (∀ (v : Bool) (k m n : Nat), k ≤ 16 →
      (debounce_run ⟨v, List.replicate k v⟩
          (List.replicate m v ++ (!v) :: List.replicate n v)).1.confirmed = v ∧
      (debounce_run ⟨v, List.replicate k v⟩
          (List.replicate m v ++ (!v) :: List.replicate n v)).2 =
        List.replicate (m + 1 + n) none) ∧
    (∀ xs ys : List Bool, xs = ys →
      (debounce_run (debounce_stateful_16 false) xs).2 =
        (debounce_run (debounce_stateful_16 false) ys).2) := by
  refine ⟨?_, ?_, ?_, ?_⟩
  · intro st s h
    by_cases hc : (List.take 16 (s :: st.window)).length = 16 ∧
        (∀ b ∈ List.take 16 (s :: st.window), b = s) ∧ s ≠ st.confirmed
    · exact hc
    · exfalso
      apply h
      unfold debounce_update
      rw [if_neg hc]
  · intro v b k hk hb
    have hbv : b = !v := by cases v <;> cases b <;> simp_all
    subst hbv
    exact debounce_sixteen_flip v k (by omega)
  · intro v k m n hk
    rw [debounce_run_append, debounce_run_feed_same v m k hk]
    have hstep :
        debounce_run ⟨v, List.replicate (min (k + m) 16) v⟩ ((!v) :: List.replicate n v) =
          ((debounce_run ⟨v, List.take 16 ((!v) :: List.replicate (min (k + m) 16) v)⟩
              (List.replicate n v)).1,
           none :: (debounce_run ⟨v, List.take 16 ((!v) :: List.replicate (min (k + m) 16) v)⟩
              (List.replicate n v)).2) := by
      simp only [debounce_run, debounce_glitch_step]
    rw [hstep]
    obtain ⟨hconf, hout⟩ := debounce_run_confirmed_none v n
      ⟨v, List.take 16 ((!v) :: List.replicate (min (k + m) 16) v)⟩ rfl
    refine ⟨hconf, ?_⟩
    rw [hout]
    show List.replicate m none ++ (none :: List.replicate n none) =
      List.replicate (m + 1 + n) (none : Option Edge)
    rw [← List.replicate_succ, ← List.replicate_add]
    congr 1
    omega
  · intro xs ys h
    rw [h]

theorem debounce_engine_spec_witness :
    ((List.take 16 (true :: (⟨false, List.replicate 15 true⟩ : DebounceState).window)).length = 16 ∧
      (∀ b ∈ List.take 16 (true :: (⟨false, List.replicate 15 true⟩ : DebounceState).window),
        b = true) ∧
      true ≠ (⟨false, List.replicate 15 true⟩ : DebounceState).confirmed) ∧
    debounce_run ⟨false, List.replicate 16 false⟩ (List.replicate 16 true) =
      (⟨true, List.replicate 16 true⟩,
       List.replicate 15 none ++ [some Edge.rising]) ∧
    (debounce_run (debounce_stateful_16 false)
        (List.replicate 3 false ++ (!false) :: List.replicate 5 false)).2 =
      List.replicate 9 none :=
  ⟨debounce_engine_spec.1 ⟨false, List.replicate 15 true⟩ true (by decide),
   by
    have h := debounce_engine_spec.2.1 false true 16 (by omega) (by simp)
    simpa using h,
   by
    have h := (debounce_engine_spec.2.2.1 false 0 3 5 (by omega)).2
    simpa [debounce_stateful_16] using h⟩

/-- The six physical buttons, in declaration order (`Button` in the source). -/
inductive Button where
  | Aus
  | Tonabnehmer
  | Ukw
  | Kurz
  | Mittel
  | Lang
deriving DecidableEq, Repr

/-- `PlaybackCommand` from the source: play the specified URL, or stop. -/
inductive PlaybackCommand where
  | PlayUrl (url : String)
  | Stop
deriving DecidableEq, Repr

/-- `Measurements`: a debouncer for every input pin. -/
structure Measurements where
  aus : DebounceState
  tonabn : DebounceState
  ukw : DebounceState
  kurz : DebounceState
  mittel : DebounceState
  lang : DebounceState
deriving DecidableEq, Repr

/-- `GpioPinState::new`: every channel's debouncer starts as
`debounce_stateful_16(false)`. -/
def GpioPinState.new : Measurements :=
  ⟨debounce_stateful_16 false, debounce_stateful_16 false, debounce_stateful_16 false,
   debounce_stateful_16 false, debounce_stateful_16 false, debounce_stateful_16 false⟩

/-- One tick's raw samples, one per pin. Each boolean is the value fed to
the channel's debouncer, i.e. `pin.read() == Level::Low` in the source. -/
structure RawSamples where
  aus : Bool
  tonabn : Bool
  ukw : Bool
  kurz : Bool
  mittel : Bool
  lang : Bool
deriving DecidableEq, Repr

/-- The body of the `process_pin!` macro: update the channel's debouncer
and classify the edge by the channel's polarity. Returns the new debouncer
state and the (pressed, released) contribution of this channel. -/
def process_pin (m : DebounceState) (sample : Bool) (button : Button) (inverted : Bool) :
    DebounceState × List Button × List Button :=
  match debounce_update m sample with
  | (m', some Edge.rising) => (m', if inverted then ([], [button]) else ([button], []))
  | (m', some Edge.falling) => (m', if inverted then ([button], []) else ([], [button]))
  | (m', none) => (m', ([], []))

/-- `GpioPinState::update`: process all six pins in declaration order — Aus
inverted, all other channels direct — accumulating the pressed and released
button lists for this tick. -/
def GpioPinState.update (st : Measurements) (s : RawSamples) :
    Measurements × List Button × List Button :=
  let r1 := process_pin st.aus s.aus Button.Aus true
  let r2 := process_pin st.tonabn s.tonabn Button.Tonabnehmer false
  let r3 := process_pin st.ukw s.ukw Button.Ukw false
  let r4 := process_pin st.kurz s.kurz Button.Kurz false
  let r5 := process_pin st.mittel s.mittel Button.Mittel false
  let r6 := process_pin st.lang s.lang Button.Lang false
  (⟨r1.1, r2.1, r3.1, r4.1, r5.1, r6.1⟩,
   r1.2.1 ++ r2.2.1 ++ r3.2.1 ++ r4.2.1 ++ r5.2.1 ++ r6.2.1,
   r1.2.2 ++ r2.2.2 ++ r3.2.2 ++ r4.2.2 ++ r5.2.2 ++ r6.2.2)

/-- The stream URL bound to each non-off button in `gpio_loop`. -/
def buttonUrl : Button → Option String
  | Button.Aus => none
  | Button.Tonabnehmer => some "http://stream.srg-ssr.ch/m/rsj/mp3_128"
  | Button.Ukw => some "http://stream.radioparadise.com/mellow-flac"
  | Button.Kurz => some "http://stream.radioparadise.com/eclectic-flac"
  | Button.Mittel => some "http://stream.radioparadise.com/rock-flac"
  | Button.Lang => some "http://streamingv2.shoutcast.com/100-PROGRESSIVEROCK"

/-- The dispatch part of one `gpio_loop` iteration, given the tick's
pressed and released lists: first, if some button was released and none
pressed, a `Stop` is sent; then, if some button was pressed, the first
pressed button is acted on — `Aus` invokes the shutdown command
synchronously (second component `true`), every other button sends its
`PlayUrl` command. Returns the channel sends in order and the shutdown
flag. -/
def gpio_dispatch (pressed released : List Button) : List PlaybackCommand × Bool :=
  let stops :=
    if released.isEmpty = false ∧ pressed.isEmpty = true then
      [PlaybackCommand.Stop]
    else []
  match pressed with
  | [] => (stops, false)
  | Button.Aus :: _ => (stops, true)
  | Button.Tonabnehmer :: _ =>
    (stops ++ [PlaybackCommand.PlayUrl "http://stream.srg-ssr.ch/m/rsj/mp3_128"], false)
  | Button.Ukw :: _ =>
    (stops ++ [PlaybackCommand.PlayUrl "http://stream.radioparadise.com/mellow-flac"], false)
  | Button.Kurz :: _ =>
    (stops ++ [PlaybackCommand.PlayUrl "http://stream.radioparadise.com/eclectic-flac"], false)
  | Button.Mittel :: _ =>
    (stops ++ [PlaybackCommand.PlayUrl "http://stream.radioparadise.com/rock-flac"], false)
  | Button.Lang :: _ =>
    (stops ++ [PlaybackCommand.PlayUrl "http://streamingv2.shoutcast.com/100-PROGRESSIVEROCK"],
     false)

/-- One full `gpio_loop` tick: debounce all pins, then dispatch. -/
def gpio_tick (st : Measurements) (s : RawSamples) :
    Measurements × List PlaybackCommand × Bool :=
  let r := GpioPinState.update st s
  (r.1, gpio_dispatch r.2.1 r.2.2)

/-- Each channel contributes its own button or nothing to the pressed list. -/
theorem process_pin_pressed_cases (m : DebounceState) (s : Bool) (b : Button) (inv : Bool) :
    (process_pin m s b inv).2.1 = [] ∨ (process_pin m s b inv).2.1 = [b] := by
  unfold process_pin
  rcases hde : debounce_update m s with ⟨m', e⟩
  rcases e with - | e
  · simp
  · rcases e <;> rcases inv <;> simp

theorem process_pin_pressed_sublist (m : DebounceState) (s : Bool) (b : Button) (inv : Bool) :
    List.Sublist (process_pin m s b inv).2.1 [b] := by
  rcases process_pin_pressed_cases m s b inv with h | h
  · rw [h]
    exact List.nil_sublist _
  · rw [h]

/-- C7: per tick, the first pressed button in declaration order is acted on
(`Aus` synchronously shuts down with no channel send, every other button
sends exactly its `PlayUrl`); a release with no press in the same tick sends
exactly one `Stop`; otherwise nothing is dispatched. The `Aus` channel is
inverted (falling edge = press, rising edge = release), all other channels
map rising to press and falling to release; the accumulated pressed list
respects declaration order. -/
theorem gpio_dispatch_spec :
    (∀ rest released, gpio_dispatch (Button.Aus :: rest) released = ([], true)) ∧
    (∀ b rest released, b ≠ Button.Aus →
      ∃ url, buttonUrl b = some url ∧
        gpio_dispatch (b :: rest) released = ([PlaybackCommand.PlayUrl url], false)) ∧
    (∀ released, released ≠ [] →
      gpio_dispatch [] released = ([PlaybackCommand.Stop], false)) ∧
    gpio_dispatch [] [] = ([], false) ∧
    (∀ (m : DebounceState) (s : Bool) (b : Button),
      ((debounce_update m s).2 = some Edge.rising →
        process_pin m s b true = ((debounce_update m s).1, [], [b]) ∧
        process_pin m s b false = ((debounce_update m s).1, [b], [])) ∧
      ((debounce_update m s).2 = some Edge.falling →
        process_pin m s b true = ((debounce_update m s).1, [b], []) ∧
        process_pin m s b false = ((debounce_update m s).1, [], [b]))) ∧
    (∀ (st : Measurements) (s : RawSamples),
      List.Sublist (GpioPinState.update st s).2.1
        [Button.Aus, Button.Tonabnehmer, Button.Ukw, Button.Kurz, Button.Mittel,
         Button.Lang]) := by
  refine ⟨?_, ?_, ?_, by simp [gpio_dispatch], ?_, ?_⟩
  · intro rest released
    simp [gpio_dispatch]
  · intro b rest released hb
    cases b with
    | Aus => exact absurd rfl hb
    | Tonabnehmer => exact ⟨_, rfl, by simp [gpio_dispatch]⟩
    | Ukw => exact ⟨_, rfl, by simp [gpio_dispatch]⟩
    | Kurz => exact ⟨_, rfl, by simp [gpio_dispatch]⟩
    | Mittel => exact ⟨_, rfl, by simp [gpio_dispatch]⟩
    | Lang => exact ⟨_, rfl, by simp [gpio_dispatch]⟩
  · intro released hrel
    cases released with
    | nil => exact absurd rfl hrel
    | cons r rest => simp [gpio_dispatch]
  · intro m s b
    rcases hde : debounce_update m s with ⟨m', e⟩
    constructor
    · intro h
      simp at h
      subst h
      constructor <;> simp [process_pin, hde]
    · intro h
      simp at h
      subst h
      constructor <;> simp [process_pin, hde]
  · intro st s
    exact ((((((process_pin_pressed_sublist st.aus s.aus Button.Aus true).append
      (process_pin_pressed_sublist st.tonabn s.tonabn Button.Tonabnehmer false)).append
      (process_pin_pressed_sublist st.ukw s.ukw Button.Ukw false)).append
      (process_pin_pressed_sublist st.kurz s.kurz Button.Kurz false)).append
      (process_pin_pressed_sublist st.mittel s.mittel Button.Mittel false)).append
      (process_pin_pressed_sublist st.lang s.lang Button.Lang false))

theorem gpio_dispatch_spec_witness :
    gpio_dispatch [Button.Aus] [Button.Ukw] = ([], true) ∧
    (∃ url, buttonUrl Button.Kurz = some url ∧
      gpio_dispatch [Button.Kurz] [] = ([PlaybackCommand.PlayUrl url], false)) ∧
    gpio_dispatch [] [Button.Lang] = ([PlaybackCommand.Stop], false) ∧
    (process_pin ⟨false, List.replicate 15 true⟩ true Button.Ukw true =
      ((debounce_update ⟨false, List.replicate 15 true⟩ true).1, [], [Button.Ukw]) ∧
     process_pin ⟨false, List.replicate 15 true⟩ true Button.Ukw false =
      ((debounce_update ⟨false, List.replicate 15 true⟩ true).1, [Button.Ukw], [])) :=
  ⟨gpio_dispatch_spec.1 [] [Button.Ukw],
   gpio_dispatch_spec.2.1 Button.Kurz [] [] (by decide),
   gpio_dispatch_spec.2.2.1 [Button.Lang] (by simp),
   (gpio_dispatch_spec.2.2.2.2.1 ⟨false, List.replicate 15 true⟩ true Button.Ukw).1
     (by decide)⟩

/-- A handle to a spawned child process, identified by its pid
(`Child` in the source; only the pid is observable to the supervisor's
process interactions). -/
structure Child where
  pid : Nat
deriving DecidableEq, Repr

/-- The supervisor's observable process interactions, in order. -/
inductive Event where
  | spawned (url : String) (pid : Nat)
  | spawnFailed (url : String)
  | exitedEarly (pid : Nat)
  | tryWaitFailed (pid : Nat)
  | sigint (pid : Nat) (failed : Bool)
  | waited (pid : Nat) (failed : Bool)
deriving DecidableEq, Repr

/-- Outcome of the post-spawn `try_wait` liveness check in `play_url`. -/
inductive TryWaitOutcome where
  | exited
  | running
  | err
deriving DecidableEq, Repr

/-- OS behaviour while one command is handled: whether `Command::spawn`
succeeds (and the new pid), the `try_wait` outcome, and whether the SIGINT
and the wait on the old child fail. -/
structure OsBehavior where
  spawnResult : Option Nat
  tryWait : TryWaitOutcome
  killFails : Bool
  waitFails : Bool
deriving DecidableEq, Repr

/-- `play_url`: spawn `ffplay`; on spawn failure log and return `None`.
Otherwise sleep 300 ms and `try_wait`: an already-exited child is only
logged and its (dead) handle still returned; a `try_wait` error returns
`None`, discarding the handle of the just-spawned process. -/
def play_url (url : String) (os : OsBehavior) : Option Child × List Event :=
  match os.spawnResult with
  | none => (none, [Event.spawnFailed url])
  | some pid =>
    match os.tryWait with
    | TryWaitOutcome.exited => (some ⟨pid⟩, [Event.spawned url pid, Event.exitedEarly pid])
    | TryWaitOutcome.running => (some ⟨pid⟩, [Event.spawned url pid])
    | TryWaitOutcome.err => (none, [Event.spawned url pid, Event.tryWaitFailed pid])

/-- The `stop` helper inside `playback_loop`: if a child handle is held,
attempt SIGINT on it and then wait for it (each failure is only logged);
in every case the handle is cleared (`*child = None`). -/
def stop (child : Option Child) (os : OsBehavior) : Option Child × List Event :=
  match child with
  | some c => (none, [Event.sigint c.pid os.killFails, Event.waited c.pid os.waitFails])
  | none => (none, [])

/-- One iteration of `playback_loop`'s receive loop: on `PlayUrl`, stop the
held child first (if any), then spawn the new one; on `Stop`, run the stop
sequence. -/
def playback_step (child : Option Child) (cmd : PlaybackCommand) (os : OsBehavior) :
    Option Child × List Event :=
  match cmd with
  | PlaybackCommand.PlayUrl url =>
    let s := if child.isSome then stop child os else (child, [])
    let p := play_url url os
    (p.1, s.2 ++ p.2)
  | PlaybackCommand.Stop => stop child os

/-- Process a command sequence, each command with its own OS behaviour,
accumulating the full event trace. -/
def playback_run (child : Option Child) :
    List (PlaybackCommand × OsBehavior) → Option Child × List Event
  | [] => (child, [])
  | (cmd, os) :: rest =>
    let p := playback_step child cmd os
    let q := playback_run p.1 rest
    (q.1, p.2 ++ q.2)

/-- The handle the supervisor holds after a trace of events: `spawned`
takes the new handle (legal only when none is held), `waited` and a
`try_wait` error drop it. -/
def heldAfter (held : Option Nat) : List Event → Option Nat
  | [] => held
  | Event.spawned _ pid :: rest => heldAfter (some pid) rest
  | Event.tryWaitFailed _ :: rest => heldAfter none rest
  | Event.waited _ _ :: rest => heldAfter none rest
  | _ :: rest => heldAfter held rest

/-- Checks along an event trace that a child is only ever spawned while no
handle is held: the stop sequence must have completed (or the previous
handle have been discarded) before every spawn. -/
def neverTwoHeld (held : Option Nat) : List Event → Bool
  | [] => true
  | Event.spawned _ pid :: rest => held.isNone && neverTwoHeld (some pid) rest
  | Event.tryWaitFailed _ :: rest => neverTwoHeld none rest
  | Event.waited _ _ :: rest => neverTwoHeld none rest
  | _ :: rest => neverTwoHeld held rest

theorem heldAfter_append (held : Option Nat) (xs ys : List Event) :
    heldAfter held (xs ++ ys) = heldAfter (heldAfter held xs) ys := by
  induction xs generalizing held with
  | nil => rfl
  | cons x xs ih =>
    cases x <;> simp [heldAfter, ih]

theorem neverTwoHeld_append (held : Option Nat) (xs ys : List Event) :
    neverTwoHeld held (xs ++ ys) =
      (neverTwoHeld held xs && neverTwoHeld (heldAfter held xs) ys) := by
  induction xs generalizing held with
  | nil => simp [neverTwoHeld, heldAfter]
  | cons x xs ih =>
    cases x <;> simp [neverTwoHeld, heldAfter, ih, Bool.and_assoc]

/-- Any single supervisor step spawns only while no handle is held, and the
handle tracked from its event trace is exactly the handle it returns. -/
theorem playback_step_held (child : Option Child) (cmd : PlaybackCommand) (os : OsBehavior) :
    neverTwoHeld (child.map Child.pid) (playback_step child cmd os).2 = true ∧
    heldAfter (child.map Child.pid) (playback_step child cmd os).2 =
      (playback_step child cmd os).1.map Child.pid := by
  cases cmd with
  | Stop =>
    cases child with
    | none => simp [playback_step, stop, neverTwoHeld, heldAfter]
    | some c => simp [playback_step, stop, neverTwoHeld, heldAfter]
  | PlayUrl url =>
    cases child with
    | none =>
      rcases hs : os.spawnResult with - | pid
      · simp [playback_step, play_url, hs, neverTwoHeld, heldAfter]
      · rcases ht : os.tryWait <;>
          simp [playback_step, play_url, hs, ht, neverTwoHeld, heldAfter]
    | some c =>
      rcases hs : os.spawnResult with - | pid
      · simp [playback_step, play_url, stop, hs, neverTwoHeld, heldAfter]
      · rcases ht : os.tryWait <;>
          simp [playback_step, play_url, stop, hs, ht, neverTwoHeld, heldAfter]

/-- Over any intent sequence the supervisor never spawns while a handle is
held, and the handle tracked from the trace matches the final state. -/
theorem playback_run_held (cmds : List (PlaybackCommand × OsBehavior)) :
    ∀ child : Option Child,
      neverTwoHeld (child.map Child.pid) (playback_run child cmds).2 = true ∧
      heldAfter (child.map Child.pid) (playback_run child cmds).2 =
        (playback_run child cmds).1.map Child.pid := by
  induction cmds with
  | nil =>
    intro child
    simp [playback_run, neverTwoHeld, heldAfter]
  | cons p rest ih =>
    intro child
    obtain ⟨cmd, os⟩ := p
    obtain ⟨h1, h2⟩ := playback_step_held child cmd os
    obtain ⟨h3, h4⟩ := ih (playback_step child cmd os).1
    simp only [playback_run]
    constructor
    · rw [neverTwoHeld_append, h1, h2, h3]
      rfl
    · rw [heldAfter_append, h2, h4]

/-- C2: the supervisor holds at most one child handle at any point of any
intent sequence (a spawn only ever happens while no handle is held);
`PlayStream` while a child is held performs the full stop sequence (SIGINT
old child, wait for it, clear the handle) before the new spawn; and
`PlayStream A` then `PlayStream B` yields exactly one stop-then-start:
spawn A, SIGINT A, wait A, spawn B, ending with only B's handle held. -/
theorem playback_at_most_one_child :
    (∀ (cmds : List (PlaybackCommand × OsBehavior)) (child : Option Child),
      neverTwoHeld (child.map Child.pid) (playback_run child cmds).2 = true) ∧
    (∀ (c : Child) (url : String) (os : OsBehavior),
      playback_step (some c) (PlaybackCommand.PlayUrl url) os =
        ((play_url url os).1,
         [Event.sigint c.pid os.killFails, Event.waited c.pid os.waitFails] ++
           (play_url url os).2)) ∧
    (∀ (urlA urlB : String) (osA osB : OsBehavior) (pA pB : Nat),
      osA.spawnResult = some pA → osA.tryWait = TryWaitOutcome.running →
      osB.spawnResult = some pB → osB.tryWait = TryWaitOutcome.running →
      playback_run none
          [(PlaybackCommand.PlayUrl urlA, osA), (PlaybackCommand.PlayUrl urlB, osB)] =
        (some ⟨pB⟩,
         [Event.spawned urlA pA, Event.sigint pA osB.killFails,
          Event.waited pA osB.waitFails, Event.spawned urlB pB])) := by
  refine ⟨fun cmds child => (playback_run_held cmds child).1, ?_, ?_⟩
  · intro c url os
    simp [playback_step, stop]
  · intro urlA urlB osA osB pA pB hsA htA hsB htB
    simp [playback_run, playback_step, play_url, stop, hsA, htA, hsB, htB]

theorem playback_at_most_one_child_witness :
    playback_run none
        [(PlaybackCommand.PlayUrl "a", ⟨some 1, TryWaitOutcome.running, false, false⟩),
         (PlaybackCommand.PlayUrl "b", ⟨some 2, TryWaitOutcome.running, false, false⟩)] =
      (some ⟨2⟩,
       [Event.spawned "a" 1, Event.sigint 1 false, Event.waited 1 false,
        Event.spawned "b" 2]) :=
  playback_at_most_one_child.2.2 "a" "b"
    ⟨some 1, TryWaitOutcome.running, false, false⟩
    ⟨some 2, TryWaitOutcome.running, false, false⟩ 1 2 rfl rfl rfl rfl

/-- C8: `Stop` while Idle is a no-op — no signal, no wait, state unchanged —
and a second `Stop` right after one that left the supervisor Idle adds no
side effect (the trace is exactly the first stop's trace). -/
theorem stop_idle_noop :
    (∀ os : OsBehavior, playback_step none PlaybackCommand.Stop os = (none, [])) ∧
    (∀ (child : Option Child) (os1 os2 : OsBehavior),
      playback_run child [(PlaybackCommand.Stop, os1), (PlaybackCommand.Stop, os2)] =
        (none, (playback_step child PlaybackCommand.Stop os1).2)) := by
  constructor
  · intro os
    rfl
  · intro child os1 os2
    cases child <;> simp [playback_run, playback_step, stop]

/-- C9: supervisor error handling is non-fatal and state-restoring: a spawn
failure is logged and the supervisor stays Idle; SIGINT/wait failures in
the stop sequence are logged and the handle is cleared regardless; and in
both cases the remaining intents are still processed. -/
theorem playback_error_recovery :
    (∀ (child : Option Child) (url : String) (os : OsBehavior),
      os.spawnResult = none →
      (playback_step child (PlaybackCommand.PlayUrl url) os).1 = none) ∧
    (∀ (url : String) (os : OsBehavior) (rest : List (PlaybackCommand × OsBehavior)),
      os.spawnResult = none →
      playback_run none ((PlaybackCommand.PlayUrl url, os) :: rest) =
        ((playback_run none rest).1,
         Event.spawnFailed url :: (playback_run none rest).2)) ∧
    (∀ (c : Child) (os : OsBehavior),
      stop (some c) os =
        (none, [Event.sigint c.pid os.killFails, Event.waited c.pid os.waitFails])) ∧
    (∀ (c : Child) (os : OsBehavior) (rest : List (PlaybackCommand × OsBehavior)),
      playback_run (some c) ((PlaybackCommand.Stop, os) :: rest) =
        ((playback_run none rest).1,
         [Event.sigint c.pid os.killFails, Event.waited c.pid os.waitFails] ++
           (playback_run none rest).2)) := by
  refine ⟨?_, ?_, fun c os => rfl, ?_⟩
  · intro child url os h
    cases child <;> simp [playback_step, play_url, stop, h]
  · intro url os rest h
    simp [playback_run, playback_step, play_url, h]
  · intro c os rest
    simp [playback_run, playback_step, stop]

theorem playback_error_recovery_witness :
    (playback_step (some ⟨7⟩) (PlaybackCommand.PlayUrl "u")
        ⟨none, TryWaitOutcome.running, false, false⟩).1 = none ∧
    playback_run none
        [(PlaybackCommand.PlayUrl "u", ⟨none, TryWaitOutcome.running, false, false⟩)] =
      ((playback_run none []).1, Event.spawnFailed "u" :: (playback_run none []).2) ∧
    stop (some ⟨7⟩) ⟨some 9, TryWaitOutcome.running, true, true⟩ =
      (none, [Event.sigint 7 true, Event.waited 7 true]) ∧
    playback_run (some ⟨7⟩)
        [(PlaybackCommand.Stop, ⟨some 9, TryWaitOutcome.running, true, true⟩)] =
      ((playback_run none []).1,
       [Event.sigint 7 true, Event.waited 7 true] ++ (playback_run none []).2) :=
  ⟨playback_error_recovery.1 (some ⟨7⟩) "u" ⟨none, TryWaitOutcome.running, false, false⟩ rfl,
   playback_error_recovery.2.1 "u" ⟨none, TryWaitOutcome.running, false, false⟩ [] rfl,
   playback_error_recovery.2.2.1 ⟨7⟩ ⟨some 9, TryWaitOutcome.running, true, true⟩,
   playback_error_recovery.2.2.2 ⟨7⟩ ⟨some 9, TryWaitOutcome.running, true, true⟩ []⟩

/-- C10: if the spawn succeeds but the post-spawn `try_wait` check errors,
`play_url` returns `None` (the just-spawned child's handle is discarded and
the supervisor records Idle, though the `spawned` event is in the trace);
if the check reports the child already exited, the dead handle is still
returned as `Some` and the supervisor enters Playing holding it. -/
theorem play_url_try_wait_edge_cases :
    (∀ (url : String) (os : OsBehavior) (pid : Nat) (child : Option Child),
      os.spawnResult = some pid → os.tryWait = TryWaitOutcome.err →
      play_url url os = (none, [Event.spawned url pid, Event.tryWaitFailed pid]) ∧
      (playback_step child (PlaybackCommand.PlayUrl url) os).1 = none) ∧
    (∀ (url : String) (os : OsBehavior) (pid : Nat),
      os.spawnResult = some pid → os.tryWait = TryWaitOutcome.exited →
      play_url url os = (some ⟨pid⟩, [Event.spawned url pid, Event.exitedEarly pid]) ∧
      (playback_step none (PlaybackCommand.PlayUrl url) os).1 = some ⟨pid⟩) := by
  constructor
  · intro url os pid child hs ht
    constructor
    · simp [play_url, hs, ht]
    · cases child <;> simp [playback_step, play_url, stop, hs, ht]
  · intro url os pid hs ht
    constructor <;> simp [playback_step, play_url, hs, ht]

theorem play_url_try_wait_edge_cases_witness :
    (play_url "u" ⟨some 5, TryWaitOutcome.err, false, false⟩ =
        (none, [Event.spawned "u" 5, Event.tryWaitFailed 5]) ∧
      (playback_step none (PlaybackCommand.PlayUrl "u")
          ⟨some 5, TryWaitOutcome.err, false, false⟩).1 = none) ∧
    (play_url "v" ⟨some 6, TryWaitOutcome.exited, false, false⟩ =
        (some ⟨6⟩, [Event.spawned "v" 6, Event.exitedEarly 6]) ∧
      (playback_step none (PlaybackCommand.PlayUrl "v")
          ⟨some 6, TryWaitOutcome.exited, false, false⟩).1 = some ⟨6⟩) :=
  ⟨play_url_try_wait_edge_cases.1 "u" ⟨some 5, TryWaitOutcome.err, false, false⟩ 5 none
     rfl rfl,
   play_url_try_wait_edge_cases.2 "v" ⟨some 6, TryWaitOutcome.exited, false, false⟩ 6
     rfl rfl⟩

end Weltempfaenger
